import Mathlib

/-!
Verification of the uqr result post-processing and rendering pipeline.

The definitions below are a shallow embedding of the three source files
`src/encode.ts`, `src/render.ts` and `src/svg.ts`.  JavaScript arrays become
`List`s, in-place mutation becomes functional construction of the new value,
and template-literal number interpolation becomes a base-10 digit printer.
The QR symbol construction itself (`encodeSegments`, `makeSegments`,
`makeBytes` from `qrcode.ts`) is an external collaborator of the verified
core; the pipeline is therefore parametrised by the collaborator's output
(`QrRaw`) or by the collaborator function itself where the claim concerns
the call order.
-/

/-- Modelled from the spec: the module semantic categories carried by the
Type Grid (`QrCodeDataType` is declared in `types.ts`, which is not part of
the verified sources).  Section 3 of the design lists function pattern,
timing pattern, data, error-correction, format/version info and
border/quiet-zone as the categories; only `Border` is used by the
post-processor under verification. -/
inductive QrCodeDataType where
  | Data : QrCodeDataType
  | Function : QrCodeDataType
  | Timing : QrCodeDataType
  | ErrorCorrection : QrCodeDataType
  | FormatInfo : QrCodeDataType
  | Border : QrCodeDataType
deriving DecidableEq, Repr, Inhabited

/-- Embedding of `QrCodeGenerateResult` (`types.ts` / consumed throughout
`encode.ts`): version, mask, size, the boolean Module Grid and the parallel
Type Grid. -/
structure QrCodeGenerateResult where
  version : Nat
  maskPattern : Int
  size : Nat
  data : List (List Bool)
  types : List (List QrCodeDataType)
deriving DecidableEq, Repr

/-- Embedding of the raw output of the external generation collaborator
`encodeSegments` (`{version, mask, size, modules, types}`). -/
structure QrRaw where
  version : Nat
  mask : Int
  size : Nat
  modules : List (List Bool)
  types : List (List QrCodeDataType)
deriving DecidableEq, Repr

/-- Embedding of `QrCodeGenerateData`: `encode` accepts a string or an
array of bytes. -/
inductive QrCodeGenerateData where
  | text : String → QrCodeGenerateData
  | bytes : List Nat → QrCodeGenerateData
deriving DecidableEq, Repr

/-- Embedding of the option records of `types.ts`.  All fields are optional
in the source and resolved to defaults by destructuring at use sites, hence
`Option` fields here.  The per-renderer extensions (`whiteChar`/`blackChar`
for the Unicode renderers, `pixelSize`/colors for the SVG renderer) are
merged into the single record; each consumer reads only its own fields. -/
structure QrCodeGenerateOptions where
  ecc : Option String := none
  boostEcc : Option Bool := none
  minVersion : Option Nat := none
  maxVersion : Option Nat := none
  maskPattern : Option Int := none
  border : Option Nat := none
  invert : Option Bool := none
  onEncoded : Option Unit := none
  whiteChar : Option String := none
  blackChar : Option String := none
  pixelSize : Option Nat := none
  whiteColor : Option String := none
  blackColor : Option String := none
deriving DecidableEq, Repr

/-- Embedding of `getDataAt` (`encode.ts` lines 102-106).  Both coordinate
upper bounds are checked against `data.length` exactly as in the source
(`x >= data.length || y >= data.length`).  The source call sites either
stay in bounds or rely on the default, so the inner list default is
unreachable whenever this function's bounds check passes on a rectangular
grid. -/
def getDataAt (data : List (List Bool)) (x y : Int) (defaults : Bool) : Bool :=
  if x < 0 ∨ y < 0 ∨ (data.length : Int) ≤ x ∨ (data.length : Int) ≤ y then defaults
  else (data.getD y.toNat []).getD x.toNat false

/-- Convenience accessor for a cell of a grid at column `x`, row `y`, with
an explicit default used when the coordinate is absent. -/
def cellAt {α : Type} (g : List (List α)) (x y : Nat) (d : α) : α :=
  (g.getD y []).getD x d

/-- Embedding of the inversion transform of `encode` (`encode.ts` line 52):
`result.data.map(row => row.map(mod => !mod))`. -/
def invertData (d : List (List Bool)) : List (List Bool) :=
  d.map (fun row => row.map (fun mod => !mod))

/-- Embedding of `addBorder` (`encode.ts` lines 59-92).  The source mutates
`input` by `unshift`/`push` loops; prepending/appending `border` light cells
to every row and `border` all-light rows above and below is the functional
reading of the same loops, and likewise for the Type Grid with the `Border`
tag.  `if (!border) return input` is the `border = 0` branch. -/
def addBorder (input : QrCodeGenerateResult) (border : Nat) : QrCodeGenerateResult :=
  if border = 0 then input
  else
    let size := input.size
    let newSize := size + border * 2
    { input with
      size := newSize
      data :=
        List.replicate border (List.replicate newSize false)
          ++ input.data.map
            (fun row => List.replicate border false ++ row ++ List.replicate border false)
          ++ List.replicate border (List.replicate newSize false)
      types :=
        List.replicate border (List.replicate newSize QrCodeDataType.Border)
          ++ input.types.map
            (fun row =>
              List.replicate border QrCodeDataType.Border ++ row
                ++ List.replicate border QrCodeDataType.Border)
          ++ List.replicate border (List.replicate newSize QrCodeDataType.Border) }

/-- Wrapping of the collaborator's raw output into a `QrCodeGenerateResult`
(`encode.ts` lines 43-49). -/
def rawResult (qr : QrRaw) : QrCodeGenerateResult :=
  { version := qr.version
    maskPattern := qr.mask
    size := qr.size
    data := qr.modules
    types := qr.types }

/-- Embedding of the post-collaborator part of `encode` (`encode.ts` lines
43-52): border addition with the resolved `border` value, then inversion of
the Module Grid when the `invert` option is set. -/
def encodeFrom (qr : QrRaw) (border : Nat) (invert : Bool) : QrCodeGenerateResult :=
  let result := addBorder (rawResult qr) border
  if invert then { result with data := invertData result.data } else result

/-- Error kinds of the orchestration (spec section 7).  Only
`InvalidEccLevel` is decidable inside the embedded core: unsupported input
shapes are excluded by typing, and collaborator failures happen inside the
external `encodeSegments`. -/
inductive QrError where
  | InvalidEccLevel : QrError
deriving DecidableEq, Repr

/-- Modelled from the spec: the symbolic-to-internal ECC mapping `EccMap`
is declared in `qrcode.ts`, which is not part of the verified sources.
Section 4.3 of the design: it maps the symbolic level `L/M/Q/H` to the
collaborator's internal representation, and an unrecognized level fails
with an `InvalidEccLevel` error. -/
def EccMap (ecc : String) : Option Nat :=
  if ecc = "L" then some 0
  else if ecc = "M" then some 1
  else if ecc = "Q" then some 2
  else if ecc = "H" then some 3
  else none

/-- Embedding of `encode` (`encode.ts` lines 15-57), parametrised by the
external collaborator `encodeSegmentsFn` (segment construction and raw
matrix generation).  Options are resolved to the source's destructuring
defaults; the symbolic ECC level is mapped before the collaborator is
invoked. -/
def encode (encodeSegmentsFn : QrCodeGenerateData → Nat → Nat → Nat → Int → Bool → QrRaw)
    (data : QrCodeGenerateData) (options : QrCodeGenerateOptions) :
    Except QrError QrCodeGenerateResult :=
  let ecc := options.ecc.getD "L"
  let boostEcc := options.boostEcc.getD false
  let minVersion := options.minVersion.getD 1
  let maxVersion := options.maxVersion.getD 40
  let maskPattern := options.maskPattern.getD (-1)
  let border := options.border.getD 1
  match EccMap ecc with
  | none => Except.error QrError.InvalidEccLevel
  | some eccInternal =>
    let qr := encodeSegmentsFn data eccInternal minVersion maxVersion maskPattern boostEcc
    Except.ok (encodeFrom qr border (options.invert.getD false))

/-! ### List-level helper lemmas -/

theorem getD_append_lt {α : Type} (l₁ l₂ : List α) (i : Nat) (d : α) (h : i < l₁.length) :
    (l₁ ++ l₂).getD i d = l₁.getD i d := by
  rw [List.getD_eq_getElem?_getD, List.getD_eq_getElem?_getD, List.getElem?_append_left h]

theorem getD_append_ge {α : Type} (l₁ l₂ : List α) (i : Nat) (d : α) (h : l₁.length ≤ i) :
    (l₁ ++ l₂).getD i d = l₂.getD (i - l₁.length) d := by
  rw [List.getD_eq_getElem?_getD, List.getD_eq_getElem?_getD, List.getElem?_append_right h]

theorem getD_replicate_lt {α : Type} (a d : α) {i n : Nat} (h : i < n) :
    (List.replicate n a).getD i d = a := by
  rw [List.getD_eq_getElem?_getD, List.getElem?_replicate]
  simp [h]

theorem getD_lt {α : Type} (l : List α) (i : Nat) (d : α) (h : i < l.length) :
    l.getD i d = l[i] := by
  rw [List.getD_eq_getElem?_getD, List.getElem?_eq_getElem h]
  rfl

theorem getD_map_lt {α β : Type} (l : List α) (f : α → β) (i : Nat) (d : β)
    (h : i < l.length) : (l.map f).getD i d = f (l[i]) := by
  rw [List.getD_eq_getElem?_getD, List.getElem?_map, List.getElem?_eq_getElem h]
  rfl

/-! ### C5: inversion is an involution -/

theorem invert_row_involutive (row : List Bool) :
    (row.map (fun mod => !mod)).map (fun mod => !mod) = row := by
  induction row with
  | nil => rfl
  | cons a t ih => simp [ih]

/-- C5: applying the inversion transform twice to a Module Grid yields the
original grid: negating every module value and then negating again is the
identity. -/
theorem invertData_involutive (d : List (List Bool)) : invertData (invertData d) = d := by
  unfold invertData
  rw [List.map_map]
  have h : ((fun row : List Bool => row.map (fun mod => !mod)) ∘
      fun row : List Bool => row.map (fun mod => !mod)) = id := by
    funext row
    simp [Function.comp, invert_row_involutive row]
  rw [h, List.map_id]

/-! ### C9 and C10: the Coordinate Accessor -/

/-- C9: for a square grid of dimension `size`, `getDataAt` returns the
caller-supplied default exactly when a coordinate lies outside `[0, size)`,
and otherwise returns the stored cell `grid[y][x]`; being a total Lean
function it raises nothing and has no side effects. -/
theorem getDataAt_square_spec (grid : List (List Bool)) (size : Nat) (x y : Int) (d : Bool)
    (hlen : grid.length = size) (hrows : ∀ row ∈ grid, row.length = size) :
    ((x < 0 ∨ y < 0 ∨ (size : Int) ≤ x ∨ (size : Int) ≤ y) → getDataAt grid x y d = d)
    ∧ (0 ≤ x → 0 ≤ y → x < (size : Int) → y < (size : Int) →
        ∃ (hy : y.toNat < grid.length) (hx : x.toNat < (grid.get ⟨y.toNat, hy⟩).length),
          getDataAt grid x y d = (grid.get ⟨y.toNat, hy⟩).get ⟨x.toNat, hx⟩) := by
  constructor
  · intro hout
    rw [getDataAt, if_pos]
    rw [hlen]
    exact hout
  · intro h0x h0y hx hy
    have hyn : y.toNat < grid.length := by
      rw [hlen]; omega
    have hrow : (grid.get ⟨y.toNat, hyn⟩).length = size :=
      hrows _ (grid.get_mem _ _)
    have hxn : x.toNat < (grid.get ⟨y.toNat, hyn⟩).length := by
      rw [hrow]; omega
    refine ⟨hyn, hxn, ?_⟩
    rw [getDataAt, if_neg]
    · rw [getD_lt _ _ _ hyn]
      rw [getD_lt _ _ _ (by simpa using hxn)]
      simp [List.get_eq_getElem]
    · rw [hlen]
      push_neg
      exact ⟨h0x, h0y, hx, hy⟩

/-- Witness for C9 at a concrete square grid: the out-of-bounds probe
`(-1, 0)` yields the supplied default. -/
theorem getDataAt_square_spec_witness :
    getDataAt [[true, false], [false, true]] (-1) 0 true = true :=
  (getDataAt_square_spec [[true, false], [false, true]] 2 (-1) 0 true rfl
    (by intro row h; fin_cases h <;> rfl)).1 (Or.inl (by decide))

/-- C10: the accessor bounds-checks the column index against the number of
rows (`data.length`), so any column index at or beyond the row count
returns the default, even when the row itself is long enough to hold the
cell. -/
theorem getDataAt_column_checked_against_rows (data : List (List Bool)) (x y : Int) (d : Bool)
    (h : (data.length : Int) ≤ x) : getDataAt data x y d = d := by
  rw [getDataAt, if_pos (Or.inr (Or.inr (Or.inl h)))]

/-- Witness for C10: on the 1-row, 2-column grid `[[false, true]]` the probe
at `(x, y) = (1, 0)` returns the default `false` although the cell
`grid[0][1]` exists and holds `true`. -/
theorem getDataAt_column_checked_against_rows_witness :
    getDataAt [[false, true]] 1 0 false = false
    ∧ ([[false, true]].getD 0 []).getD 1 false = true :=
  ⟨getDataAt_column_checked_against_rows [[false, true]] 1 0 false (by decide), by decide⟩

/-! ### C2: unrecognized ECC level -/

/-- C2: whenever the `ecc` option is none of the recognized symbols
`L`, `M`, `Q`, `H`, `encode` fails with `InvalidEccLevel` uniformly for
every possible generation collaborator — i.e. before the collaborator is
invoked. -/
theorem encode_invalid_ecc (data : QrCodeGenerateData) (options : QrCodeGenerateOptions)
    (e : String) (he : options.ecc = some e)
    (h1 : e ≠ "L") (h2 : e ≠ "M") (h3 : e ≠ "Q") (h4 : e ≠ "H") :
    ∀ encodeSegmentsFn, encode encodeSegmentsFn data options =
      Except.error QrError.InvalidEccLevel := by
  intro fn
  rw [encode]
  simp [he, EccMap, h1, h2, h3, h4]

/-- Witness for C2: the symbol `"X"` is rejected for a concrete input and a
concrete collaborator. -/
theorem encode_invalid_ecc_witness :
    encode (fun _ _ _ _ _ _ => ⟨1, 0, 1, [[true]], [[QrCodeDataType.Data]]⟩)
      (QrCodeGenerateData.text "A") { ecc := some "X" } =
      Except.error QrError.InvalidEccLevel :=
  encode_invalid_ecc (QrCodeGenerateData.text "A") { ecc := some "X" } "X" rfl
    (by decide) (by decide) (by decide) (by decide)
    (fun _ _ _ _ _ _ => ⟨1, 0, 1, [[true]], [[QrCodeDataType.Data]]⟩)

/-! ### C4: border addition -/

theorem bordered_grid_length {α : Type} (g : List (List α)) (b n : Nat) (v : α) :
    (List.replicate b (List.replicate n v)
      ++ g.map (fun row => List.replicate b v ++ row ++ List.replicate b v)
      ++ List.replicate b (List.replicate n v)).length = b + g.length + b := by
  simp
  omega

theorem bordered_grid_rows {α : Type} (g : List (List α)) (s b n : Nat) (v : α)
    (hr : ∀ row ∈ g, row.length = s) (hn : n = b + s + b) :
    ∀ row ∈ (List.replicate b (List.replicate n v)
      ++ g.map (fun row => List.replicate b v ++ row ++ List.replicate b v)
      ++ List.replicate b (List.replicate n v)), row.length = n := by
  intro row hmem
  rcases List.mem_append.1 hmem with hmem' | hlast
  · rcases List.mem_append.1 hmem' with hfirst | hmid
    · rw [List.eq_of_mem_replicate hfirst]
      simp
    · rcases List.mem_map.1 hmid with ⟨r, hrg, hrow⟩
      subst hrow
      simp [hr r hrg]
      omega
  · rw [List.eq_of_mem_replicate hlast]
    simp

theorem bordered_grid_ring {α : Type} (g : List (List α)) (s b : Nat) (v d : α)
    (hl : g.length = s) (hr : ∀ row ∈ g, row.length = s)
    (x y : Nat) (hx : x < s + b * 2) (hy : y < s + b * 2)
    (hring : x < b ∨ y < b ∨ b + s ≤ x ∨ b + s ≤ y) :
    cellAt (List.replicate b (List.replicate (s + b * 2) v)
      ++ g.map (fun row => List.replicate b v ++ row ++ List.replicate b v)
      ++ List.replicate b (List.replicate (s + b * 2) v)) x y d = v := by
  unfold cellAt
  by_cases hy1 : y < b
  · rw [getD_append_lt _ _ _ _ (by simp; omega)]
    rw [getD_append_lt _ _ _ _ (by simp; omega)]
    rw [getD_replicate_lt _ _ hy1, getD_replicate_lt _ _ hx]
  · by_cases hy2 : y < b + s
    · rw [getD_append_lt _ _ _ _ (by simp [hl]; omega)]
      rw [getD_append_ge _ _ _ _ (by simp; omega)]
      simp only [List.length_replicate]
      have hyb : y - b < g.length := by rw [hl]; omega
      rw [getD_map_lt _ _ _ _ hyb]
      have hrowlen : (g[y - b]).length = s := hr _ (List.getElem_mem hyb)
      rcases hring with hx1 | hy1' | hx2 | hy2'
      · rw [getD_append_lt _ _ _ _ (by simp [hrowlen]; omega)]
        rw [getD_append_lt _ _ _ _ (by simp; omega)]
        rw [getD_replicate_lt _ _ hx1]
      · omega
      · rw [getD_append_ge _ _ _ _ (by simp [hrowlen]; omega)]
        rw [getD_replicate_lt]
        simp [hrowlen]
        omega
      · omega
    · rw [getD_append_ge _ _ _ _ (by simp [hl]; omega)]
      rw [getD_replicate_lt _ _ (by simp [hl]; omega)]
      rw [getD_replicate_lt _ _ hx]

/-- C4: `addBorder` with width `0` returns its input unchanged; with a
positive width `b` the returned result's size is the old size plus `2b`,
the Module Grid and Type Grid both become square of that new size (keeping
identical dimensions), and every cell of the added ring is light (`false`)
in the Module Grid and tagged `Border` in the Type Grid. -/
theorem addBorder_spec (input : QrCodeGenerateResult) (b : Nat) (hb : 0 < b)
    (hdl : input.data.length = input.size)
    (hdr : ∀ row ∈ input.data, row.length = input.size)
    (htl : input.types.length = input.size)
    (htr : ∀ row ∈ input.types, row.length = input.size) :
    addBorder input 0 = input
    ∧ (addBorder input b).size = input.size + 2 * b
    ∧ (addBorder input b).data.length = input.size + 2 * b
    ∧ (∀ row ∈ (addBorder input b).data, row.length = input.size + 2 * b)
    ∧ (addBorder input b).types.length = input.size + 2 * b
    ∧ (∀ row ∈ (addBorder input b).types, row.length = input.size + 2 * b)
    ∧ (∀ x y : Nat, x < input.size + 2 * b → y < input.size + 2 * b →
        (x < b ∨ y < b ∨ b + input.size ≤ x ∨ b + input.size ≤ y) →
        cellAt (addBorder input b).data x y true = false
        ∧ cellAt (addBorder input b).types x y QrCodeDataType.Data = QrCodeDataType.Border) := by
  have hbne : ¬ b = 0 := by omega
  refine ⟨by rw [addBorder]; simp, ?_, ?_, ?_, ?_, ?_, ?_⟩
  · rw [addBorder]; simp [hbne]; omega
  · rw [addBorder]
    simp only [hbne, if_false]
    rw [bordered_grid_length]
    simp [hdl]; omega
  · rw [addBorder]
    simp only [hbne, if_false]
    intro row hmem
    have := bordered_grid_rows input.data input.size b (input.size + b * 2) false hdr
      (by omega) row hmem
    omega
  · rw [addBorder]
    simp only [hbne, if_false]
    rw [bordered_grid_length]
    simp [htl]; omega
  · rw [addBorder]
    simp only [hbne, if_false]
    intro row hmem
    have := bordered_grid_rows input.types input.size b (input.size + b * 2)
      QrCodeDataType.Border htr (by omega) row hmem
    omega
  · intro x y hx hy hring
    rw [addBorder]
    simp only [hbne, if_false]
    constructor
    · exact bordered_grid_ring input.data input.size b false true hdl hdr x y
        (by omega) (by omega) hring
    · exact bordered_grid_ring input.types input.size b QrCodeDataType.Border
        QrCodeDataType.Data htl htr x y (by omega) (by omega) hring

/-- Witness for C4 at a concrete well-formed 1x1 result and border 2: the
ring cell (0, 0) of the bordered result is light and tagged `Border`, and
the new size is 1 + 2*2. -/
theorem addBorder_spec_witness :
    (addBorder ⟨1, 0, 1, [[true]], [[QrCodeDataType.Data]]⟩ 2).size = 1 + 2 * 2
    ∧ cellAt (addBorder ⟨1, 0, 1, [[true]], [[QrCodeDataType.Data]]⟩ 2).data 0 0 true = false := by
  have h := addBorder_spec ⟨1, 0, 1, [[true]], [[QrCodeDataType.Data]]⟩ 2 (by decide)
    rfl (by intro row hmem; fin_cases hmem <;> rfl)
    rfl (by intro row hmem; fin_cases hmem <;> rfl)
  exact ⟨h.2.1, (h.2.2.2.2.2.2 0 0 (by decide) (by decide) (Or.inl (by decide))).1⟩

/-! ### C6: inversion strictly after border addition -/

theorem getD_map_getD {α β : Type} (l : List α) (f : α → β) (i : Nat) (d : β) (e : α)
    (h : i < l.length) : (l.map f).getD i d = f (l.getD i e) := by
  rw [getD_map_lt _ _ _ _ h, getD_lt _ _ _ h]

/-- C6: when the `invert` option is set, `encode` negates every boolean of
the bordered Module Grid while leaving the Type Grid of the bordered result
completely unchanged, and the inversion is applied strictly after border
addition — so with any positive border the corner module `data[0][0]` of
the returned result is dark (`true`): the quiet zone itself is inverted. -/
theorem encodeFrom_invert_after_border (qr : QrRaw) (border : Nat) (hb : 0 < border) :
    (encodeFrom qr border true).types = (addBorder (rawResult qr) border).types
    ∧ (encodeFrom qr border true).data = invertData (addBorder (rawResult qr) border).data
    ∧ cellAt (encodeFrom qr border true).data 0 0 false = true := by
  have hbne : ¬ border = 0 := by omega
  refine ⟨rfl, rfl, ?_⟩
  show cellAt (invertData (addBorder (rawResult qr) border).data) 0 0 false = true
  rw [addBorder]
  rw [if_neg hbne]
  unfold cellAt invertData
  simp only
  rw [getD_map_getD _ _ _ _ ([] : List Bool) (by simp; omega)]
  rw [getD_append_lt _ _ _ _ (by simp; omega)]
  rw [getD_append_lt _ _ _ _ (by simp; omega)]
  rw [getD_replicate_lt _ _ hb]
  rw [List.map_replicate]
  rw [getD_replicate_lt _ _ (by omega)]
  rfl

/-- Witness for C6 at a concrete raw matrix and border 1: the corner of the
inverted, bordered result is dark. -/
theorem encodeFrom_invert_after_border_witness :
    cellAt (encodeFrom ⟨1, 0, 1, [[true]], [[QrCodeDataType.Data]]⟩ 1 true).data 0 0 false
      = true :=
  (encodeFrom_invert_after_border ⟨1, 0, 1, [[true]], [[QrCodeDataType.Data]]⟩ 1
    (by decide)).2.2

/-! ### String machinery shared by the text renderers -/

/-- Embedding of JavaScript `Array.prototype.join(sep)` on string arrays. -/
def joinSep (sep : String) : List String → String
  | [] => ""
  | [a] => a
  | a :: b :: t => a ++ sep ++ joinSep sep (b :: t)

/-- Embedding of JavaScript `Array.prototype.join('')` on string arrays. -/
def concatAll : List String → String
  | [] => ""
  | a :: t => a ++ concatAll t

/-- Character-level image of `joinSep`. -/
def interJoin (sep : List Char) : List (List Char) → List Char
  | [] => []
  | [a] => a
  | a :: b :: t => a ++ sep ++ interJoin sep (b :: t)

theorem joinSep_data (sep : String) (l : List String) :
    (joinSep sep l).data = interJoin sep.data (l.map String.data) := by
  induction l with
  | nil => rfl
  | cons a t ih =>
    cases t with
    | nil => rfl
    | cons b t' => simp [joinSep, interJoin, ih]

theorem concatAll_data (l : List String) :
    (concatAll l).data = (l.map String.data).flatten := by
  induction l with
  | nil => rfl
  | cons a t ih => simp [concatAll, ih]

theorem flatten_map_singleton {α β : Type} (l : List α) (f : α → β) :
    (l.map (fun a => [f a])).flatten = l.map f := by
  induction l with
  | nil => rfl
  | cons a t ih => simp [ih]

/-- Splitting a character list on a separator character, the image of
JavaScript `String.prototype.split(sep)`. -/
def splitChar (sep : Char) : List Char → List (List Char)
  | [] => [[]]
  | c :: cs =>
    match splitChar sep cs with
    | [] => [[c]]
    | r :: rs => if c = sep then [] :: r :: rs else (c :: r) :: rs

theorem splitChar_ne_nil (sep : Char) (s : List Char) : splitChar sep s ≠ [] := by
  cases s with
  | nil => simp [splitChar]
  | cons c cs =>
    simp only [splitChar]
    split
    · simp
    · split <;> simp

theorem splitChar_no_sep (sep : Char) (s : List Char) (h : sep ∉ s) : splitChar sep s = [s] := by
  induction s with
  | nil => rfl
  | cons c cs ih =>
    have hc : ¬ c = sep := fun e => h (e ▸ List.mem_cons_self c cs)
    have hcs : sep ∉ cs := fun hm => h (List.mem_cons_of_mem _ hm)
    simp only [splitChar, ih hcs]
    simp [hc]

theorem splitChar_append (sep : Char) (a s : List Char) (ha : sep ∉ a) :
    splitChar sep (a ++ sep :: s) = a :: splitChar sep s := by
  induction a with
  | nil =>
    simp only [List.nil_append, splitChar]
    rcases h : splitChar sep s with _ | ⟨r, rs⟩
    · exact absurd h (splitChar_ne_nil sep s)
    · simp
  | cons c a' ih =>
    have hc : ¬ c = sep := fun e => ha (e ▸ List.mem_cons_self c a')
    have ha' : sep ∉ a' := fun hm => ha (List.mem_cons_of_mem _ hm)
    have hcons : splitChar sep (c :: (a' ++ sep :: s))
        = match splitChar sep (a' ++ sep :: s) with
          | [] => [[c]]
          | r :: rs => if c = sep then [] :: r :: rs else (c :: r) :: rs := rfl
    rw [List.cons_append, hcons, ih ha']
    simp [hc]

theorem splitChar_interJoin (lines : List (List Char)) (hne : lines ≠ [])
    (hno : ∀ l ∈ lines, '\n' ∉ l) :
    splitChar '\n' (interJoin ['\n'] lines) = lines := by
  induction lines with
  | nil => exact absurd rfl hne
  | cons a t ih =>
    cases t with
    | nil => exact splitChar_no_sep _ _ (hno a (List.mem_cons_self _ _))
    | cons b t' =>
      have hstep : interJoin ['\n'] (a :: b :: t') = a ++ '\n' :: interJoin ['\n'] (b :: t') := by
        simp [interJoin]
      rw [hstep, splitChar_append _ _ _ (hno a (List.mem_cons_self _ _))]
      rw [ih (by simp) (fun l hl => hno l (List.mem_cons_of_mem _ hl))]

/-! ### The text renderers -/

/-- Embedding of `renderUnicode` (`render.ts` lines 10-23) factored at the
encoded result: the source first obtains `encode(data, options)` from the
orchestrator and then maps every module of every row to the configured
character (`whiteChar` default full block, `blackChar` default light
shade), concatenates each row and joins the lines with a newline. -/
def renderUnicode (result : QrCodeGenerateResult) (options : QrCodeGenerateOptions) : String :=
  let whiteChar := options.whiteChar.getD "█"
  let blackChar := options.blackChar.getD "░"
  joinSep "\n"
    (result.data.map
      (fun row => concatAll (row.map (fun mod => if mod then blackChar else whiteChar))))

/-- Embedding of `renderANSI` (`render.ts` lines 31-40): a full delegation
to `renderUnicode` with the two character substitutions overridden by the
ANSI background-color escape sequences around a full-width space. -/
def renderANSI (result : QrCodeGenerateResult) (options : QrCodeGenerateOptions) : String :=
  renderUnicode result
    { options with
      blackChar := some "\x1B[40m　\x1B[0m"
      whiteChar := some "\x1B[47m　\x1B[0m" }

theorem renderUnicode_default_line (row : List Bool) :
    (concatAll (row.map (fun mod => if mod then "░" else "█"))).data
      = row.map (fun mod => if mod then '░' else '█') := by
  rw [concatAll_data, List.map_map]
  have hcomp : (String.data ∘ fun mod : Bool => if mod then "░" else "█")
      = fun mod : Bool => [if mod then '░' else '█'] := by
    funext mod
    cases mod <;> rfl
  rw [hcomp, flatten_map_singleton]

/-- C7: with default options `renderUnicode` maps each dark module to the
light-shade character and each light module to the full-block character,
builds one line per matrix row and joins them with single newlines without
a trailing newline, so the output split on the newline character consists
of exactly `size` lines, each exactly `size` characters long. -/
theorem renderUnicode_default_spec (r : QrCodeGenerateResult)
    (hlen : r.data.length = r.size)
    (hrows : ∀ row ∈ r.data, row.length = r.size)
    (hpos : 0 < r.size) :
    splitChar '\n' (renderUnicode r {}).data
      = r.data.map (fun row => row.map (fun mod => if mod then '░' else '█'))
    ∧ (splitChar '\n' (renderUnicode r {}).data).length = r.size
    ∧ ∀ l ∈ splitChar '\n' (renderUnicode r {}).data, l.length = r.size := by
  have key : (renderUnicode r {}).data
      = interJoin ['\n'] (r.data.map (fun row => row.map (fun mod => if mod then '░' else '█'))) := by
    show (joinSep "\n" (r.data.map
      (fun row => concatAll (row.map (fun mod => if mod then "░" else "█"))))).data = _
    rw [joinSep_data, List.map_map]
    have : (String.data ∘ fun row => concatAll (row.map (fun mod : Bool => if mod then "░" else "█")))
        = fun row : List Bool => row.map (fun mod => if mod then '░' else '█') := by
      funext row
      exact renderUnicode_default_line row
    rw [this]
  have main1 : splitChar '\n' (renderUnicode r {}).data
      = r.data.map (fun row => row.map (fun mod => if mod then '░' else '█')) := by
    rw [key]
    apply splitChar_interJoin
    · intro h
      rw [List.map_eq_nil_iff] at h
      rw [h] at hlen
      simp at hlen
      omega
    · intro l hl
      rcases List.mem_map.1 hl with ⟨row, _, rfl⟩
      intro hmem
      rcases List.mem_map.1 hmem with ⟨mod, _, heq⟩
      cases mod <;> simp at heq
  refine ⟨main1, ?_, ?_⟩
  · rw [main1]
    simp [hlen]
  · intro l hl
    rw [main1] at hl
    rcases List.mem_map.1 hl with ⟨row, hrow, rfl⟩
    simp [hrows row hrow]

/-- Witness for C7 on a concrete well-formed 2x2 result. -/
theorem renderUnicode_default_spec_witness :
    splitChar '\n' (renderUnicode ⟨1, 0, 2, [[true, false], [false, true]],
        [[QrCodeDataType.Data, QrCodeDataType.Data], [QrCodeDataType.Data, QrCodeDataType.Data]]⟩
        {}).data
      = [['░', '█'], ['█', '░']] :=
  (renderUnicode_default_spec ⟨1, 0, 2, [[true, false], [false, true]],
      [[QrCodeDataType.Data, QrCodeDataType.Data], [QrCodeDataType.Data, QrCodeDataType.Data]]⟩
    rfl (by intro row h; fin_cases h <;> rfl) (by decide)).1

/-- C8: `renderANSI` returns exactly what `renderUnicode` returns on the
same options with the dark and light characters replaced by the fixed ANSI
background escape sequences, and any `blackChar`/`whiteChar` the caller
passed is ignored. -/
theorem renderANSI_delegates (r : QrCodeGenerateResult) (options : QrCodeGenerateOptions)
    (b w : Option String) :
    renderANSI r { options with blackChar := b, whiteChar := w }
      = renderUnicode r
          { options with
            blackChar := some "\x1B[40m　\x1B[0m"
            whiteChar := some "\x1B[47m　\x1B[0m" }
    ∧ renderANSI r { options with blackChar := b, whiteChar := w } = renderANSI r options :=
  ⟨rfl, rfl⟩

/-! ### C1: the compact renderer's out-of-bounds probe -/

/-- Embedding of the glyph selection of `renderUnicodeCompact` (`render.ts`
lines 52-76): the probe is `at(x, y) = getDataAt(result.data, x, y, true)`
and the four (top, bottom) combinations select full block, upper half
block, lower half block, or space. -/
def compactGlyph (result : QrCodeGenerateResult) (col row : Nat) : String :=
  if getDataAt result.data col row true = false
      ∧ getDataAt result.data col (row + 1) true = false then "█"
  else if getDataAt result.data col row true = false
      ∧ getDataAt result.data col (row + 1) true = true then "▀"
  else if getDataAt result.data col row true = true
      ∧ getDataAt result.data col (row + 1) true = false then "▄"
  else " "

/-- One output line of `renderUnicodeCompact`, covering matrix rows `row`
and `row + 1`. -/
def compactLine (result : QrCodeGenerateResult) (row : Nat) : String :=
  concatAll ((List.range result.size).map (fun col => compactGlyph result col row))

/-- The line list of `renderUnicodeCompact`: the source's row loop steps by
two, visiting rows `0, 2, ...`, i.e. `⌈size / 2⌉` lines. -/
def compactLines (result : QrCodeGenerateResult) : List String :=
  (List.range ((result.size + 1) / 2)).map (fun i => compactLine result (2 * i))

/-- Embedding of `renderUnicodeCompact` (`render.ts` lines 48-83) factored
at the encoded result. -/
def renderUnicodeCompact (result : QrCodeGenerateResult) : String :=
  joinSep "\n" (compactLines result)

/-- Counterexample to C1 as stated: on the 1x1 all-dark matrix (odd size,
last row all dark) the compact renderer outputs the "both dark" glyph
(the space), not an "upper half" or "lower half" glyph, because the
out-of-bounds probe at `y = size` yields the dark default. -/
theorem renderUnicodeCompact_dark_row_cx :
    renderUnicodeCompact ⟨1, 0, 1, [[true]], [[QrCodeDataType.Data]]⟩ = " "
    ∧ (" " : String) ≠ "▀" ∧ (" " : String) ≠ "▄"
    ∧ getDataAt [[true]] 0 1 true = true := by
  decide

theorem concatAll_replicate_space (n : Nat) :
    (concatAll (List.replicate n " ")).data = List.replicate n ' ' := by
  induction n with
  | zero => rfl
  | succ k ih => simp [List.replicate_succ, concatAll, ih]

/-- C1 (amended): `renderUnicodeCompact` probes the two rows of each pair
via the Coordinate Accessor with dark (`true`) as the out-of-bounds
default, so that for an odd size the probe of the nonexistent row
`y = size` yields dark; consequently a last row that is all dark renders
as a line of "both dark" glyphs (spaces), not as half-block glyphs. -/
theorem renderUnicodeCompact_dark_default (r : QrCodeGenerateResult)
    (hodd : r.size % 2 = 1)
    (hlen : r.data.length = r.size)
    (hlast : ∀ cell ∈ r.data.getD (r.size - 1) [], cell = true)
    (hlastlen : (r.data.getD (r.size - 1) []).length = r.size) :
    (∀ x : Nat, getDataAt r.data x r.size true = true)
    ∧ ((compactLines r).getD ((r.size + 1) / 2 - 1) "").data = List.replicate r.size ' ' := by
  have hprobe : ∀ x : Nat, getDataAt r.data x r.size true = true := by
    intro x
    rw [getDataAt, if_pos]
    rw [hlen]
    exact Or.inr (Or.inr (Or.inr (by omega)))
  refine ⟨hprobe, ?_⟩
  have hk : (r.size + 1) / 2 - 1 < (List.range ((r.size + 1) / 2)).length := by
    simp
    omega
  rw [compactLines, getD_map_lt _ _ _ _ (by simpa using hk)]
  rw [List.getElem_range]
  rw [show 2 * ((r.size + 1) / 2 - 1) = r.size - 1 by omega]
  have hglyph : ∀ col ∈ List.range r.size, compactGlyph r col (r.size - 1) = " " := by
    intro col hcol
    rw [List.mem_range] at hcol
    have htop : getDataAt r.data col (r.size - 1 : Nat) true = true := by
      rw [getDataAt, if_neg]
      · have hcl : col < (r.data.getD (r.size - 1) []).length := by
          rw [hlastlen]
          exact hcol
        simp only [Int.toNat_natCast]
        rw [getD_lt _ _ _ hcl]
        exact hlast _ (List.getElem_mem hcl)
      · rw [hlen]
        push_neg
        refine ⟨by omega, by omega, by omega, by omega⟩
    have hbot : getDataAt r.data col ((r.size - 1 : Nat) + 1) true = true := by
      have hcast : ((r.size - 1 : Nat) : Int) + 1 = ((r.size : Nat) : Int) := by omega
      rw [hcast]
      exact hprobe col
    rw [compactGlyph, htop]
    rw [hbot]
    simp
  rw [compactLine, List.map_congr_left hglyph]
  have hconst : (List.range r.size).map (fun _ => " ") = List.replicate r.size " " := by
    rw [List.map_const']
    simp
  rw [hconst, concatAll_replicate_space]

/-- Witness for C1 (amended) on the concrete 1x1 all-dark matrix: the only
(and last) output line is a single space. -/
theorem renderUnicodeCompact_dark_default_witness :
    ((compactLines ⟨1, 0, 1, [[true]], [[QrCodeDataType.Data]]⟩).getD 0 "").data
      = List.replicate 1 ' ' :=
  (renderUnicodeCompact_dark_default ⟨1, 0, 1, [[true]], [[QrCodeDataType.Data]]⟩
    rfl rfl (by decide) rfl).2

/-! ### C3: the SVG renderer -/

/-- The base-10 digit character of `n % 10`, as produced by JavaScript
number-to-string interpolation. -/
def digitCharOf (n : Nat) : Char :=
  match n % 10 with
  | 0 => '0' | 1 => '1' | 2 => '2' | 3 => '3' | 4 => '4'
  | 5 => '5' | 6 => '6' | 7 => '7' | 8 => '8' | _ => '9'

/-- Fuel-driven base-10 digit accumulation; `fuel = n + 1` always
suffices. -/
def natCharsAux : Nat → Nat → List Char → List Char
  | 0, _, acc => acc
  | fuel + 1, n, acc =>
    if n < 10 then digitCharOf n :: acc
    else natCharsAux fuel (n / 10) (digitCharOf n :: acc)

/-- Embedding of JavaScript template-literal interpolation of a
non-negative number: its base-10 representation. -/
def natStr (n : Nat) : String := ⟨natCharsAux (n + 1) n []⟩

theorem digitCharOf_isDigit (n : Nat) : (digitCharOf n).isDigit = true := by
  rw [digitCharOf]
  split <;> decide

theorem natCharsAux_digits : ∀ (fuel n : Nat) (acc : List Char),
    (∀ c ∈ acc, c.isDigit = true) → ∀ c ∈ natCharsAux fuel n acc, c.isDigit = true := by
  intro fuel
  induction fuel with
  | zero => intro n acc hacc c hc; exact hacc c hc
  | succ f ih =>
    intro n acc hacc c hc
    rw [natCharsAux] at hc
    by_cases hn : n < 10
    · rw [if_pos hn] at hc
      rcases List.mem_cons.1 hc with rfl | hmem
      · exact digitCharOf_isDigit n
      · exact hacc c hmem
    · rw [if_neg hn] at hc
      refine ih (n / 10) _ ?_ c hc
      intro c' hc'
      rcases List.mem_cons.1 hc' with rfl | hm
      · exact digitCharOf_isDigit n
      · exact hacc c' hm

theorem natStr_digits (n : Nat) : ∀ c ∈ (natStr n).data, c.isDigit = true :=
  natCharsAux_digits (n + 1) n [] (by simp)

/-- Embedding of the dark-module subpath list of `renderSVG` (`svg.ts`
lines 26-35): the nested row/col loop pushes, for each dark cell at
(row, col), the closed unit-square subpath `M{x},{y}h{p}v{p}h-{p}z` with
`x = col * pixelSize`, `y = row * pixelSize`. -/
def svgPathes (result : QrCodeGenerateResult) (pixelSize : Nat) : List String :=
  ((List.range result.size).map (fun row =>
    (List.range result.size).filterMap (fun col =>
      if (result.data.getD row []).getD col false then
        some ("M" ++ natStr (col * pixelSize) ++ "," ++ natStr (row * pixelSize)
          ++ "h" ++ natStr pixelSize ++ "v" ++ natStr pixelSize
          ++ "h-" ++ natStr pixelSize ++ "z")
      else none))).flatten

/-- The number of dark modules visited by the `renderSVG` loop. -/
def darkCount (result : QrCodeGenerateResult) : Nat :=
  ((List.range result.size).map (fun row =>
    ((List.range result.size).filter
      (fun col => (result.data.getD row []).getD col false)).length)).sum

/-- Embedding of `renderSVG` (`svg.ts` lines 11-42) factored at the encoded
result, taking the resolved options (`pixelSize` default 10, `whiteColor`
default "white", `blackColor` default "black"): the `<svg>` open tag with
the viewBox, one background `<rect>`, one `<path>` holding every
dark-module subpath, and the closing tag, concatenated literally. -/
def renderSVG (result : QrCodeGenerateResult) (pixelSize : Nat)
    (whiteColor blackColor : String) : String :=
  let height := result.size * pixelSize
  let width := result.size * pixelSize
  "<svg xmlns=\"http://www.w3.org/2000/svg\" viewBox=\"0 0 " ++ natStr width ++ " "
      ++ natStr height ++ "\">"
    ++ ("<rect fill=\"" ++ whiteColor ++ "\" width=\"" ++ natStr width ++ "\" height=\""
      ++ natStr height ++ "\"/>")
    ++ ("<path fill=\"" ++ blackColor ++ "\" d=\"" ++ concatAll (svgPathes result pixelSize)
      ++ "\"/>")
    ++ "</svg>"

/-- An SVG path command letter of the subpaths emitted by `renderSVG`:
move, horizontal line, vertical line, or close. -/
def isCmdChar (c : Char) : Bool := c == 'M' || c == 'h' || c == 'v' || c == 'z'

/-- The number of path commands in a string. -/
def cmdCount (s : String) : Nat := (s.data.filter isCmdChar).length

/-- Counterexample to C3 as stated: the 1x1 all-dark matrix has one dark
module, and its path data `M0,0h10v10h-10z` contains five path commands
(move, horizontal, vertical, horizontal, close), not `4 x 1`. -/
theorem renderSVG_cmd_count_cx :
    darkCount ⟨1, 0, 1, [[true]], [[QrCodeDataType.Data]]⟩ = 1
    ∧ cmdCount (concatAll (svgPathes ⟨1, 0, 1, [[true]], [[QrCodeDataType.Data]]⟩ 10)) = 5
    ∧ cmdCount (concatAll (svgPathes ⟨1, 0, 1, [[true]], [[QrCodeDataType.Data]]⟩ 10))
        ≠ 4 * darkCount ⟨1, 0, 1, [[true]], [[QrCodeDataType.Data]]⟩ := by
  refine ⟨rfl, rfl, ?_⟩
  decide

theorem cmdCount_append (a b : String) : cmdCount (a ++ b) = cmdCount a + cmdCount b := by
  simp [cmdCount, List.filter_append]

theorem isDigit_not_cmd (c : Char) (h : c.isDigit = true) : isCmdChar c = false := by
  by_cases hM : c = 'M'
  · exact absurd (hM ▸ h) (by decide)
  by_cases hh : c = 'h'
  · exact absurd (hh ▸ h) (by decide)
  by_cases hv : c = 'v'
  · exact absurd (hv ▸ h) (by decide)
  by_cases hz : c = 'z'
  · exact absurd (hz ▸ h) (by decide)
  simp [isCmdChar, hM, hh, hv, hz]

theorem cmdCount_natStr (n : Nat) : cmdCount (natStr n) = 0 := by
  rw [cmdCount]
  rw [List.filter_eq_nil_iff.2 (fun c hc => by
    rw [isDigit_not_cmd c (natStr_digits n c hc)]
    simp)]
  rfl

theorem cmdCount_module (a b p : Nat) :
    cmdCount ("M" ++ natStr a ++ "," ++ natStr b ++ "h" ++ natStr p ++ "v" ++ natStr p
      ++ "h-" ++ natStr p ++ "z") = 5 := by
  simp only [cmdCount_append, cmdCount_natStr]
  decide

theorem mem_svgPathes_cmdCount (r : QrCodeGenerateResult) (p : Nat) (s : String)
    (hs : s ∈ svgPathes r p) : cmdCount s = 5 := by
  rw [svgPathes, List.mem_flatten] at hs
  rcases hs with ⟨l, hl, hsl⟩
  rcases List.mem_map.1 hl with ⟨row, _, rfl⟩
  rcases List.mem_filterMap.1 hsl with ⟨col, _, hcol⟩
  by_cases hc : (r.data.getD row []).getD col false
  · rw [if_pos hc] at hcol
    cases hcol
    exact cmdCount_module _ _ _
  · rw [if_neg hc] at hcol
    exact absurd hcol (by simp)

theorem sum_map_const_of_mem {α : Type} (l : List α) (f : α → Nat) (k : Nat)
    (h : ∀ x ∈ l, f x = k) : (l.map f).sum = k * l.length := by
  induction l with
  | nil => simp
  | cons a t ih =>
    rw [List.map_cons, List.sum_cons, h a (List.mem_cons_self a t),
      ih (fun x hx => h x (List.mem_cons_of_mem _ hx))]
    simp
    ring

theorem cmdCount_concatAll (l : List String) :
    cmdCount (concatAll l) = (l.map cmdCount).sum := by
  induction l with
  | nil => rfl
  | cons a t ih => simp [concatAll, cmdCount_append, ih]

theorem filterMap_if_length {α β : Type} (l : List α) (p : α → Bool) (f : α → β) :
    (l.filterMap (fun a => if p a then some (f a) else none)).length
      = (l.filter p).length := by
  induction l with
  | nil => rfl
  | cons a t ih =>
    by_cases hp : p a
    · simp [List.filterMap_cons, List.filter_cons, hp, ih]
    · simp [List.filterMap_cons, List.filter_cons, hp, ih]

theorem svgPathes_length (r : QrCodeGenerateResult) (p : Nat) :
    (svgPathes r p).length = darkCount r := by
  rw [svgPathes, darkCount, List.length_flatten, List.map_map]
  congr 1
  apply List.map_congr_left
  intro row _
  exact filterMap_if_length _ _ _

theorem cmdCount_svg_d (r : QrCodeGenerateResult) (p : Nat) :
    cmdCount (concatAll (svgPathes r p)) = 5 * darkCount r := by
  rw [cmdCount_concatAll,
    sum_map_const_of_mem _ _ 5 (fun s hs => mem_svgPathes_cmdCount r p s hs),
    svgPathes_length]

/-! ### Substring occurrence counting -/

/-- The number of positions of `s` at which `pat` occurs as a contiguous
sublist. -/
def occList (pat : List Char) : List Char → Nat
  | [] => if List.isPrefixOf pat [] then 1 else 0
  | c :: s => (if List.isPrefixOf pat (c :: s) then 1 else 0) + occList pat s

/-- The number of occurrences of the pattern inside a string. -/
def occStr (pat s : String) : Nat := occList pat.data s.data

theorem occList_cons_ne (c0 c : Char) (pt s : List Char) (h : ¬ c0 = c) :
    occList (c0 :: pt) (c :: s) = occList (c0 :: pt) s := by
  have hpre : List.isPrefixOf (c0 :: pt) (c :: s) = false := by
    simp [List.isPrefixOf, h]
  rw [occList, hpre]
  simp

theorem occList_cons_head (c0 : Char) (pt s : List Char) :
    occList (c0 :: pt) (c0 :: s)
      = (if List.isPrefixOf pt s then 1 else 0) + occList (c0 :: pt) s := by
  rw [occList]
  have hpre : List.isPrefixOf (c0 :: pt) (c0 :: s) = List.isPrefixOf pt s := by
    simp [List.isPrefixOf]
  rw [hpre]

theorem occList_zero (c0 : Char) (pt s : List Char) (h : c0 ∉ s) :
    occList (c0 :: pt) s = 0 := by
  induction s with
  | nil => simp [occList, List.isPrefixOf]
  | cons c cs ih =>
    have hc : ¬ c0 = c := fun e => h (e ▸ List.mem_cons_self c cs)
    rw [occList_cons_ne _ _ _ _ hc]
    exact ih (fun hm => h (List.mem_cons_of_mem _ hm))

theorem occList_skip (c0 : Char) (pt s₁ s₂ : List Char) (h : c0 ∉ s₁) :
    occList (c0 :: pt) (s₁ ++ s₂) = occList (c0 :: pt) s₂ := by
  induction s₁ with
  | nil => rfl
  | cons c cs ih =>
    have hc : ¬ c0 = c := fun e => h (e ▸ List.mem_cons_self c cs)
    rw [List.cons_append, occList_cons_ne _ _ _ _ hc]
    exact ih (fun hm => h (List.mem_cons_of_mem _ hm))

theorem not_mem_append2 {α : Type} {a : α} {l₁ l₂ : List α} (h₁ : a ∉ l₁) (h₂ : a ∉ l₂) :
    a ∉ l₁ ++ l₂ := by
  intro hm
  rcases List.mem_append.1 hm with h | h
  · exact h₁ h
  · exact h₂ h

theorem occ_tag_shape (pt A B C D : List Char)
    (hA : '<' ∉ A) (hB : '<' ∉ B) (hC : '<' ∉ C) (hD : '<' ∉ D) :
    occList ('<' :: pt) ('<' :: (A ++ '<' :: (B ++ '<' :: (C ++ '<' :: D))))
      = (if List.isPrefixOf pt (A ++ '<' :: (B ++ '<' :: (C ++ '<' :: D))) then 1 else 0)
        + ((if List.isPrefixOf pt (B ++ '<' :: (C ++ '<' :: D)) then 1 else 0)
        + ((if List.isPrefixOf pt (C ++ '<' :: D) then 1 else 0)
        + (if List.isPrefixOf pt D then 1 else 0))) := by
  rw [occList_cons_head, occList_skip _ _ _ _ hA]
  rw [occList_cons_head, occList_skip _ _ _ _ hB]
  rw [occList_cons_head, occList_skip _ _ _ _ hC]
  rw [occList_cons_head, occList_zero _ _ _ hD]
  simp

/-! ### Decomposition of the SVG document at its four tag openers -/

/-- The characters of the `<svg ...>` open tag after its `<`. -/
def svgOpenTail (w h : Nat) : List Char :=
  ("svg xmlns=\"http://www.w3.org/2000/svg\" viewBox=\"0 0 " : String).data
    ++ ((natStr w).data ++ ((" " : String).data ++ ((natStr h).data ++ ("\">" : String).data)))

/-- The characters of the background `<rect .../>` element after its `<`. -/
def svgRectTail (wc : String) (w h : Nat) : List Char :=
  ("rect fill=\"" : String).data ++ (wc.data ++ (("\" width=\"" : String).data
    ++ ((natStr w).data ++ (("\" height=\"" : String).data
    ++ ((natStr h).data ++ ("\"/>" : String).data)))))

/-- The characters of the `<path .../>` element after its `<`. -/
def svgPathTail (bc d : String) : List Char :=
  ("path fill=\"" : String).data ++ (bc.data ++ (("\" d=\"" : String).data
    ++ (d.data ++ ("\"/>" : String).data)))

/-- The characters of the closing `</svg>` tag after its `<`. -/
def svgCloseTail : List Char := ("/svg>" : String).data

theorem natStr_no_lt (n : Nat) : '<' ∉ (natStr n).data := by
  intro hm
  exact absurd (natStr_digits n '<' hm) (by decide)

theorem module_str_no_lt (a b p : Nat) :
    '<' ∉ ("M" ++ natStr a ++ "," ++ natStr b ++ "h" ++ natStr p ++ "v" ++ natStr p
      ++ "h-" ++ natStr p ++ "z").data := by
  simp only [String.data_append]
  exact not_mem_append2 (not_mem_append2 (not_mem_append2 (not_mem_append2 (not_mem_append2
    (not_mem_append2 (not_mem_append2 (not_mem_append2 (not_mem_append2 (not_mem_append2
      (by decide) (natStr_no_lt a)) (by decide)) (natStr_no_lt b)) (by decide))
      (natStr_no_lt p)) (by decide)) (natStr_no_lt p)) (by decide)) (natStr_no_lt p))
    (by decide)

theorem svgPathes_no_lt (r : QrCodeGenerateResult) (p : Nat) :
    '<' ∉ (concatAll (svgPathes r p)).data := by
  rw [concatAll_data]
  intro hm
  rw [List.mem_flatten] at hm
  rcases hm with ⟨l, hl, hc⟩
  rcases List.mem_map.1 hl with ⟨s, hs, rfl⟩
  rw [svgPathes, List.mem_flatten] at hs
  rcases hs with ⟨l', hl', hsl⟩
  rcases List.mem_map.1 hl' with ⟨row, _, rfl⟩
  rcases List.mem_filterMap.1 hsl with ⟨col, _, hcol⟩
  by_cases hcell : (r.data.getD row []).getD col false
  · rw [if_pos hcell] at hcol
    cases hcol
    exact module_str_no_lt _ _ _ hc
  · rw [if_neg hcell] at hcol
    exact absurd hcol (by simp)

theorem svgOpenTail_no_lt (w h : Nat) : '<' ∉ svgOpenTail w h :=
  not_mem_append2 (by decide) (not_mem_append2 (natStr_no_lt w)
    (not_mem_append2 (by decide) (not_mem_append2 (natStr_no_lt h) (by decide))))

theorem svgRectTail_no_lt (wc : String) (w h : Nat) (hwc : '<' ∉ wc.data) :
    '<' ∉ svgRectTail wc w h :=
  not_mem_append2 (by decide) (not_mem_append2 hwc (not_mem_append2 (by decide)
    (not_mem_append2 (natStr_no_lt w) (not_mem_append2 (by decide)
      (not_mem_append2 (natStr_no_lt h) (by decide))))))

theorem svgPathTail_no_lt (bc d : String) (hbc : '<' ∉ bc.data) (hd : '<' ∉ d.data) :
    '<' ∉ svgPathTail bc d :=
  not_mem_append2 (by decide) (not_mem_append2 hbc (not_mem_append2 (by decide)
    (not_mem_append2 hd (by decide))))

theorem svgCloseTail_no_lt : '<' ∉ svgCloseTail := by decide

theorem renderSVG_eq (r : QrCodeGenerateResult) (p : Nat) (wc bc : String) :
    renderSVG r p wc bc =
      "<svg xmlns=\"http://www.w3.org/2000/svg\" viewBox=\"0 0 " ++ natStr (r.size * p)
          ++ " " ++ natStr (r.size * p) ++ "\">"
        ++ ("<rect fill=\"" ++ wc ++ "\" width=\"" ++ natStr (r.size * p) ++ "\" height=\""
          ++ natStr (r.size * p) ++ "\"/>")
        ++ ("<path fill=\"" ++ bc ++ "\" d=\"" ++ concatAll (svgPathes r p) ++ "\"/>")
        ++ "</svg>" := rfl

theorem renderSVG_decomp (r : QrCodeGenerateResult) (p : Nat) (wc bc : String) :
    (renderSVG r p wc bc).data
      = '<' :: (svgOpenTail (r.size * p) (r.size * p)
        ++ '<' :: (svgRectTail wc (r.size * p) (r.size * p)
        ++ '<' :: (svgPathTail bc (concatAll (svgPathes r p))
        ++ '<' :: svgCloseTail))) := by
  rw [renderSVG_eq]
  simp only [svgOpenTail, svgRectTail, svgPathTail, svgCloseTail, String.data_append,
    List.append_assoc, List.cons_append]

theorem pathPat_not_openTail (w h : Nat) (X : List Char) :
    List.isPrefixOf ("path" : String).data (svgOpenTail w h ++ X) = false := by
  simp [svgOpenTail, List.isPrefixOf, List.cons_append]

theorem pathPat_not_rectTail (wc : String) (w h : Nat) (X : List Char) :
    List.isPrefixOf ("path" : String).data (svgRectTail wc w h ++ X) = false := by
  simp [svgRectTail, List.isPrefixOf, List.cons_append]

theorem pathPat_pathTail (bc d : String) (X : List Char) :
    List.isPrefixOf ("path" : String).data (svgPathTail bc d ++ X) = true := by
  simp [svgPathTail, List.isPrefixOf, List.cons_append]

theorem pathPat_not_closeTail :
    List.isPrefixOf ("path" : String).data svgCloseTail = false := by decide

theorem rectPat_not_openTail (w h : Nat) (X : List Char) :
    List.isPrefixOf ("rect" : String).data (svgOpenTail w h ++ X) = false := by
  simp [svgOpenTail, List.isPrefixOf, List.cons_append]

theorem rectPat_rectTail (wc : String) (w h : Nat) (X : List Char) :
    List.isPrefixOf ("rect" : String).data (svgRectTail wc w h ++ X) = true := by
  simp [svgRectTail, List.isPrefixOf, List.cons_append]

theorem rectPat_not_pathTail (bc d : String) (X : List Char) :
    List.isPrefixOf ("rect" : String).data (svgPathTail bc d ++ X) = false := by
  simp [svgPathTail, List.isPrefixOf, List.cons_append]

theorem rectPat_not_closeTail :
    List.isPrefixOf ("rect" : String).data svgCloseTail = false := by decide

/-- C3 (amended): for every encoded result the SVG output contains exactly
one `<path>` element, whose path-command count equals 5 times the number of
dark modules (move, horizontal, vertical, horizontal, close per module),
and exactly one `<rect>` element filled with `whiteColor` whose width and
height attributes are the whole canvas `size * pixelSize`, inside an
`<svg>` element whose viewBox is `0 0 width height` with
`width = height = size * pixelSize`.  The color strings are assumed not to
contain `<`, which would itself create spurious tag openers. -/
theorem renderSVG_spec (r : QrCodeGenerateResult) (p : Nat) (wc bc : String)
    (hwc : '<' ∉ wc.data) (hbc : '<' ∉ bc.data) :
    occStr "<path" (renderSVG r p wc bc) = 1
    ∧ occStr "<rect" (renderSVG r p wc bc) = 1
    ∧ (∃ pre post, (renderSVG r p wc bc).data
        = pre ++ ("<rect fill=\"" ++ wc ++ "\" width=\"" ++ natStr (r.size * p)
          ++ "\" height=\"" ++ natStr (r.size * p) ++ "\"/>").data ++ post)
    ∧ List.IsPrefix ("<svg xmlns=\"http://www.w3.org/2000/svg\" viewBox=\"0 0 "
        ++ natStr (r.size * p) ++ " " ++ natStr (r.size * p) ++ "\">").data
        (renderSVG r p wc bc).data
    ∧ List.IsSuffix ("</svg>" : String).data (renderSVG r p wc bc).data
    ∧ cmdCount (concatAll (svgPathes r p)) = 5 * darkCount r := by
  have hA := svgOpenTail_no_lt (r.size * p) (r.size * p)
  have hB := svgRectTail_no_lt wc (r.size * p) (r.size * p) hwc
  have hC := svgPathTail_no_lt bc (concatAll (svgPathes r p)) hbc (svgPathes_no_lt r p)
  have hD := svgCloseTail_no_lt
  refine ⟨?_, ?_, ?_, ?_, ?_, cmdCount_svg_d r p⟩
  · show occList ('<' :: ("path" : String).data) (renderSVG r p wc bc).data = 1
    rw [renderSVG_decomp, occ_tag_shape _ _ _ _ _ hA hB hC hD,
      pathPat_not_openTail, pathPat_not_rectTail, pathPat_pathTail, pathPat_not_closeTail]
    simp
  · show occList ('<' :: ("rect" : String).data) (renderSVG r p wc bc).data = 1
    rw [renderSVG_decomp, occ_tag_shape _ _ _ _ _ hA hB hC hD,
      rectPat_not_openTail, rectPat_rectTail, rectPat_not_pathTail, rectPat_not_closeTail]
    simp
  · refine ⟨("<svg xmlns=\"http://www.w3.org/2000/svg\" viewBox=\"0 0 "
        ++ natStr (r.size * p) ++ " " ++ natStr (r.size * p) ++ "\">").data,
      (("<path fill=\"" ++ bc ++ "\" d=\"" ++ concatAll (svgPathes r p) ++ "\"/>")
        ++ "</svg>").data, ?_⟩
    rw [renderSVG_eq]
    simp [String.data_append, List.append_assoc]
  · refine ⟨(("<rect fill=\"" ++ wc ++ "\" width=\"" ++ natStr (r.size * p) ++ "\" height=\""
        ++ natStr (r.size * p) ++ "\"/>")
      ++ ("<path fill=\"" ++ bc ++ "\" d=\"" ++ concatAll (svgPathes r p) ++ "\"/>")
      ++ "</svg>").data, ?_⟩
    rw [renderSVG_eq]
    simp [String.data_append, List.append_assoc]
  · refine ⟨("<svg xmlns=\"http://www.w3.org/2000/svg\" viewBox=\"0 0 "
        ++ natStr (r.size * p) ++ " " ++ natStr (r.size * p) ++ "\">"
      ++ ("<rect fill=\"" ++ wc ++ "\" width=\"" ++ natStr (r.size * p) ++ "\" height=\""
        ++ natStr (r.size * p) ++ "\"/>")
      ++ ("<path fill=\"" ++ bc ++ "\" d=\"" ++ concatAll (svgPathes r p) ++ "\"/>")).data, ?_⟩
    rw [renderSVG_eq]
    simp [String.data_append, List.append_assoc]

/-- Witness for C3 (amended) on the concrete 1x1 all-dark matrix with the
default options: exactly one `<path>` element occurs. -/
theorem renderSVG_spec_witness :
    occStr "<path" (renderSVG ⟨1, 0, 1, [[true]], [[QrCodeDataType.Data]]⟩ 10 "white" "black")
      = 1 :=
  (renderSVG_spec ⟨1, 0, 1, [[true]], [[QrCodeDataType.Data]]⟩ 10 "white" "black"
    (by decide) (by decide)).1
